import Mathlib

/-!
Verification of the fishlet target generator (`src/target.cpp`, with a second
copy in `src/unnamed/part_000`).

The program's arithmetic is embedded shallowly: C `double` values become `ℚ`
(exact idealisation of the real-valued layout expressions), C `int` values
become `ℤ`, the C conversion `(int)x` becomes truncation toward zero, C `%`
on `int` becomes `Int.tmod` and C `/` on `int` becomes `Int.tdiv` (both
truncate toward zero, exactly as C does).  The recursive `gcd` helper is
embedded with an explicit fuel parameter so that its (non-)termination can be
reasoned about.  The `getopt` phase of `main` is embedded at the level of the
option stream that `getopt` delivers to the `switch` statement.
-/

/-- Models `inch_pt` (`target.cpp` lines 27-31): inches to points. -/
def inch_pt (i : ℚ) : ℚ :=
  i * 72

/-- Models `pt_inch` (`target.cpp` lines 33-37): points to inches. -/
def pt_inch (p : ℚ) : ℚ :=
  p / 72

/-- Models the C conversion `(int)x` applied to an exact rational value:
truncation toward zero (`Int.tdiv` truncates toward zero, and a rational is
stored as `num/den` with `den > 0`). -/
def truncQ (q : ℚ) : ℤ :=
  q.num.tdiv (q.den : ℤ)

/-- Models the recursive helper `gcd` (`target.cpp` lines 39-43):
`gcd(a, b) = (a == 0) ? b : (a < b) ? gcd(a, b % a) : gcd(b, a)`.
The C function has no fuel parameter; fuel is added here to make the
recursion well-founded in the embedding, with `none` meaning that the call
has not finished within `fuel` recursive steps.  C `%` on `int` is
`Int.tmod`. -/
def gcdF : Nat → ℤ → ℤ → Option ℤ
  | 0, _, _ => none
  | fuel + 1, a, b =>
    if a = 0 then some b
    else if a < b then gcdF fuel a (b.tmod a)
    else gcdF fuel b a

/-- Models `ring_spacing` (`target.cpp` lines 153-157):
`radius / (rings + 0.5)`; the literal `0.5` is exactly `1/2`. -/
def ring_spacing (radius : ℚ) (rings : ℤ) : ℚ :=
  radius / ((rings : ℚ) + 1 / 2)

/-- Models `ring_radius` (`target.cpp` lines 159-163):
`rs / 2 + ring * rs` where `rs = ring_spacing(radius, rings)`. -/
def ring_radius (radius : ℚ) (rings r : ℤ) : ℚ :=
  ring_spacing radius rings / 2 + (r : ℚ) * ring_spacing radius rings

/-- Models the radius computation of `main` (`target.cpp` lines 221-225):
the variable is declared `int radius`, so the real-valued expression
`width/2 - margin - linew/2` (on the shorter page dimension) is truncated
toward zero by the implicit `double` to `int` conversion.  All four
arguments are in points. -/
def outer_radius (width height margin linew : ℚ) : ℤ :=
  if width < height then truncQ (width / 2 - margin - linew / 2)
  else truncQ (height / 2 - margin - linew / 2)

/-- Stroke / fill colors distinguished by the ring-drawing code. -/
inductive Color where
  | white
  | black
deriving DecidableEq

/-- Models the stroke-color selection of the ring-outline loop
(`target.cpp` lines 264-273): white when
`(ring > 0 && ring < opt_irings) || (ring > opt_rings - opt_orings && ring < opt_rings)`,
else black. -/
def strokeColor (rings irings orings r : ℤ) : Color :=
  if (r > 0 ∧ r < irings) ∨ (r > rings - orings ∧ r < rings) then Color.white
  else Color.black

/-- Models the label-color selection of the ring-number loop
(`target.cpp` lines 281-296): white when
`ring <= opt_irings || ring > opt_rings - opt_orings`, else black. -/
def labelColor (rings irings orings r : ℤ) : Color :=
  if r ≤ irings ∨ r > rings - orings then Color.white
  else Color.black

/-- Models the caption numerator (`target.cpp` line 328):
`int num = (int)(pt_inch(rs) * 32 + 0.5)`. -/
def captionNum (rs : ℚ) : ℤ :=
  truncQ (pt_inch rs * 32 + 1 / 2)

/-- Models the caption denominator (`target.cpp` line 327): `int den = 32`. -/
def captionDen : ℤ :=
  32

/-- Models the reduced caption fraction (`target.cpp` lines 327-332):
`g = gcd(num, den)` and then the pair `(num / g, den / g)` shown in the
caption `"Ring spacing num/g / den/g \""`.  C integer division is
`Int.tdiv`; `none` means the `gcd` call did not finish within `fuel`
steps. -/
def captionFraction (fuel : Nat) (rs : ℚ) : Option (ℤ × ℤ) :=
  match gcdF fuel (captionNum rs) captionDen with
  | none => none
  | some g => some ((captionNum rs).tdiv g, captionDen.tdiv g)

/-- Models the option stream that `getopt(argc, argv, "s:m:o:r:I:O:l:b")`
delivers to the `switch` in `main` (`target.cpp` lines 177-206).
`unknownFlag` is the `'?'` result for an unrecognized flag, which reaches
the `default:` label. -/
inductive CliOpt where
  | sizeArg (v : String)
  | marginArg (v : String)
  | outArg (v : String)
  | ringsArg (v : String)
  | iringsArg (v : String)
  | oringsArg (v : String)
  | linewArg (v : String)
  | bgFlag
  | unknownFlag
deriving DecidableEq

/-- Models the option variables of `main` (`target.cpp` lines 168-175).
The numeric options are recorded as the raw `optarg` text handed to
`atof`/`atoi` (`none` meaning the built-in default applies); no claim
depends on their numeric interpretation.  `bg` models `bool opt_bg`. -/
structure Config where
  geom : String
  margin : Option String
  fname : String
  rings : Option String
  irings : Option String
  orings : Option String
  linew : Option String
  bg : Bool
deriving DecidableEq

/-- Models the initial values of the option variables (`target.cpp`
lines 168-175).  `opt_bg` is declared `bool opt_bg;` WITHOUT an
initializer, so its initial value is indeterminate; the parameter `bg0`
stands for whatever value the uninitialized memory happens to hold. -/
def initConfig (bg0 : Bool) : Config :=
  { geom := "8.5x11", margin := none, fname := "target.pdf", rings := none,
    irings := none, orings := none, linew := none, bg := bg0 }

/-- Models the `while (getopt...) switch` loop (`target.cpp` lines 177-206).
Each recognized option updates the corresponding variable; an unrecognized
flag reaches `default: usage();`, which terminates the process, modelled as
`none`. -/
def parseLoop : Config → List CliOpt → Option Config
  | c, [] => some c
  | c, CliOpt.sizeArg v :: rest => parseLoop { c with geom := v } rest
  | c, CliOpt.marginArg v :: rest => parseLoop { c with margin := some v } rest
  | c, CliOpt.outArg v :: rest => parseLoop { c with fname := v } rest
  | c, CliOpt.ringsArg v :: rest => parseLoop { c with rings := some v } rest
  | c, CliOpt.iringsArg v :: rest => parseLoop { c with irings := some v } rest
  | c, CliOpt.oringsArg v :: rest => parseLoop { c with orings := some v } rest
  | c, CliOpt.linewArg v :: rest => parseLoop { c with linew := some v } rest
  | c, CliOpt.bgFlag :: rest => parseLoop { c with bg := true } rest
  | _, CliOpt.unknownFlag :: _ => none

/-- Outcome of the argument-handling prefix of `main`: either `usage()` is
reached (it prints the usage text to `cerr` and calls `exit(2)` before any
output file is created, `target.cpp` lines 45-58), or control reaches
`cairo_pdf_surface_create` with the parsed configuration. -/
inductive RunOutcome where
  | usageExit
  | render (c : Config)
deriving DecidableEq

/-- Models `main` from the `getopt` loop through the `strchr(opt_geom, 'x')`
check (`target.cpp` lines 177-210 and 208-210): an unrecognized flag, or a
geometry string without an `'x'`, reaches `usage()`; otherwise the program
proceeds to create the PDF surface. -/
def runMain (bg0 : Bool) (opts : List CliOpt) : RunOutcome :=
  match parseLoop (initConfig bg0) opts with
  | none => RunOutcome.usageExit
  | some c =>
    if 'x' ∈ c.geom.toList then RunOutcome.render c else RunOutcome.usageExit

/-- Exit status of the modelled prefix of `main`: `usage()` calls `exit(2)`
(`target.cpp` line 57); the render path of the happy-path model returns 0
(`target.cpp` line 355). -/
def exitStatus : RunOutcome → ℤ
  | RunOutcome.usageExit => 2
  | RunOutcome.render _ => 0

/-- Whether the usage text was written to standard error: `usage()` writes
its lines to `cerr` (`target.cpp` lines 48-56); the render path never calls
`usage()`. -/
def usageOnStderr : RunOutcome → Bool
  | RunOutcome.usageExit => true
  | RunOutcome.render _ => false

/-- Whether an output file is created: `cairo_pdf_surface_create`
(`target.cpp` line 227) runs only on the render path; `usage()` exits
before it. -/
def outputCreated : RunOutcome → Bool
  | RunOutcome.usageExit => false
  | RunOutcome.render _ => true

/-- The effect of one option on the geometry string: `-s` overwrites
`opt_geom`, everything else leaves it unchanged. -/
def geomStep (g : String) : CliOpt → String
  | CliOpt.sizeArg v => v
  | _ => g

/-- The effective `-s` argument of a command line: the last `-s` value, or
the default `"8.5x11"` when `-s` is not given. -/
def effGeom (opts : List CliOpt) : String :=
  opts.foldl geomStep "8.5x11"

/-- Whether the background rectangle is filled (`target.cpp` lines 233-239):
`if (opt_bg) { cairo_rectangle(...); cairo_fill(cr); }`, given the
indeterminate initial value `bg0` of the uninitialized `opt_bg`. -/
def backgroundFilled (bg0 : Bool) (opts : List CliOpt) : Bool :=
  match runMain bg0 opts with
  | RunOutcome.usageExit => false
  | RunOutcome.render c => c.bg

/-! ### Helper lemmas -/

/-- The denominator `rings + 0.5` is never zero for an integer ring count. -/
theorem ringDenom_ne_zero (N : ℤ) : ((N : ℚ) + 1 / 2) ≠ 0 := by
  intro h
  have h2 : ((2 * N + 1 : ℤ) : ℚ) = 0 := by push_cast; linarith
  have h3 : (2 * N + 1 : ℤ) = 0 := by exact_mod_cast h2
  omega

/-- On nonnegative rationals, the C truncation agrees with the floor. -/
theorem truncQ_eq_floor (q : ℚ) (h : 0 ≤ q) : truncQ q = ⌊q⌋ := by
  have hnum : 0 ≤ q.num := Rat.num_nonneg.mpr h
  have hden : 0 ≤ (q.den : ℤ) := Int.ofNat_nonneg _
  rw [truncQ, Int.tdiv_eq_ediv hnum hden, Rat.floor_def]

/-- The C truncation of a nonnegative rational is nonnegative. -/
theorem truncQ_nonneg (q : ℚ) (h : 0 ≤ q) : 0 ≤ truncQ q := by
  rw [truncQ_eq_floor q h]
  exact Int.floor_nonneg.mpr h

/-- When the code's `gcd` finishes on nonnegative arguments, its value is
the mathematical greatest common divisor. -/
theorem gcdF_sound (fuel : Nat) :
    ∀ a b g : ℤ, 0 ≤ a → 0 ≤ b → gcdF fuel a b = some g → g = (Int.gcd a b : ℤ) := by
  induction fuel with
  | zero => intro a b g _ _ hrun; simp [gcdF] at hrun
  | succ n ih =>
    intro a b g ha hb hrun
    rw [gcdF] at hrun
    by_cases h0 : a = 0
    · simp [h0] at hrun
      subst h0
      rw [← hrun, Int.gcd, Int.natAbs_zero, Nat.gcd_zero_left, Int.natAbs_of_nonneg hb]
    · by_cases hlt : a < b
      · simp [h0, hlt] at hrun
        have ha' : 0 < a := lt_of_le_of_ne ha (Ne.symm h0)
        have hmod : b.tmod a = b % a := Int.tmod_eq_emod hb ha
        have hmodnn : 0 ≤ b.tmod a := by
          rw [hmod]; exact Int.emod_nonneg b h0
        have := ih a (b.tmod a) g ha hmodnn hrun
        rw [this, hmod]
        congr 1
        rw [Int.gcd, Int.gcd]
        obtain ⟨m, rfl⟩ := Int.eq_ofNat_of_zero_le ha
        obtain ⟨p, rfl⟩ := Int.eq_ofNat_of_zero_le hb
        rw [← Int.ofNat_emod, Int.natAbs_ofNat, Int.natAbs_ofNat, Int.natAbs_ofNat]
        rw [Nat.gcd_comm m (p % m), ← Nat.gcd_rec m p]
      · simp [h0, hlt] at hrun
        have := ih b a g hb ha hrun
        rw [this, Int.gcd_comm]

/-- An unrecognized flag anywhere in the option stream aborts the
`getopt` loop through `usage()`. -/
theorem parseLoop_none_of_unknown :
    ∀ (opts : List CliOpt) (c : Config), CliOpt.unknownFlag ∈ opts →
      parseLoop c opts = none := by
  intro opts
  induction opts with
  | nil => intro c h; cases h
  | cons o rest ih =>
    intro c h
    cases o with
    | sizeArg v =>
      rcases List.mem_cons.mp h with h1 | h2
      · cases h1
      · exact ih _ h2
    | marginArg v =>
      rcases List.mem_cons.mp h with h1 | h2
      · cases h1
      · exact ih _ h2
    | outArg v =>
      rcases List.mem_cons.mp h with h1 | h2
      · cases h1
      · exact ih _ h2
    | ringsArg v =>
      rcases List.mem_cons.mp h with h1 | h2
      · cases h1
      · exact ih _ h2
    | iringsArg v =>
      rcases List.mem_cons.mp h with h1 | h2
      · cases h1
      · exact ih _ h2
    | oringsArg v =>
      rcases List.mem_cons.mp h with h1 | h2
      · cases h1
      · exact ih _ h2
    | linewArg v =>
      rcases List.mem_cons.mp h with h1 | h2
      · cases h1
      · exact ih _ h2
    | bgFlag =>
      rcases List.mem_cons.mp h with h1 | h2
      · cases h1
      · exact ih _ h2
    | unknownFlag => rfl

/-- A successful pass through the `getopt` loop leaves `opt_geom` equal to
the fold of the `-s` updates over the initial value. -/
theorem parseLoop_geom :
    ∀ (opts : List CliOpt) (c c' : Config), parseLoop c opts = some c' →
      c'.geom = opts.foldl geomStep c.geom := by
  intro opts
  induction opts with
  | nil =>
    intro c c' h
    simp [parseLoop] at h
    subst h
    rfl
  | cons o rest ih =>
    intro c c' h
    cases o with
    | sizeArg v =>
      rw [List.foldl_cons]
      exact ih { c with geom := v } c' h
    | marginArg v =>
      rw [List.foldl_cons]
      exact ih { c with margin := some v } c' h
    | outArg v =>
      rw [List.foldl_cons]
      exact ih { c with fname := v } c' h
    | ringsArg v =>
      rw [List.foldl_cons]
      exact ih { c with rings := some v } c' h
    | iringsArg v =>
      rw [List.foldl_cons]
      exact ih { c with irings := some v } c' h
    | oringsArg v =>
      rw [List.foldl_cons]
      exact ih { c with orings := some v } c' h
    | linewArg v =>
      rw [List.foldl_cons]
      exact ih { c with linew := some v } c' h
    | bgFlag =>
      rw [List.foldl_cons]
      exact ih { c with bg := true } c' h
    | unknownFlag => cases h

/-! ### Claims -/

/-- Claim C1, counterexample: at the default page (612x792 points, margin 18,
line width 3.6 = 18/5 points) the code's radius is the integer 286, while the
real-valued expression `width/2 - margin - linew/2` is 286.2 = 1431/5, so the
two differ. -/
theorem outer_radius_not_exact :
    ((outer_radius 612 792 18 (18 / 5) : ℤ) : ℚ) ≠ 612 / 2 - 18 - (18 / 5) / 2 := by
  have h1 : outer_radius 612 792 18 (18 / 5) = 286 := by
    rw [outer_radius, if_pos (by norm_num : (612 : ℚ) < 792)]
    have harg : (612 : ℚ) / 2 - 18 - (18 / 5) / 2 = 1431 / 5 := by norm_num
    rw [harg, truncQ_eq_floor _ (by norm_num)]
    norm_num
  rw [h1]
  norm_num

/-- Claim C1 (amended): the outer target radius equals the TRUNCATION TOWARD
ZERO (the C `int` conversion) of half the shorter page dimension minus the
margin minus half the line width, for every page width, height, margin and
line width in points; it equals the real-valued expression itself only when
that expression is a whole number of points. -/
theorem outer_radius_eq_trunc (w h m l : ℚ) :
    outer_radius w h m l = truncQ (min w h / 2 - m - l / 2) := by
  rw [outer_radius]
  by_cases hc : w < h
  · rw [if_pos hc, min_eq_left (le_of_lt hc)]
  · rw [if_neg hc, min_eq_right (le_of_not_lt hc)]

/-- Claim C2, counterexample: `ring_spacing(100, 8)` is `100 / 8.5 = 200/17 ≈
11.765`, which exceeds the claimed approximate value 11.111 by more than
one half, so the claimed example is false under any reasonable tolerance. -/
theorem ring_spacing_example_false :
    ring_spacing 100 8 = 200 / 17 ∧ ring_spacing 100 8 - 11111 / 1000 > 1 / 2 := by
  constructor <;> norm_num [ring_spacing]

/-- Claim C2 (amended): for every radius `R` and ring count `N`,
`ring_spacing(R, N) = R / (N + 0.5)`; in particular for `R = 100` and
`N = 8` the result is `200/17 ≈ 11.765` (not 11.111). -/
theorem ring_spacing_formula (R : ℚ) (N : ℤ) :
    ring_spacing R N = R / ((N : ℚ) + 1 / 2) ∧ ring_spacing 100 8 = 200 / 17 :=
  ⟨rfl, by norm_num [ring_spacing]⟩

/-- Claim C3: for every radius `R`, ring count `N` and index `k` with
`0 ≤ k ≤ N`, `ring_radius(R, N, k) = ring_spacing(R,N)/2 + k * ring_spacing(R,N)`;
and for every `R > 0` and `N ≥ 1` the outermost radius `ring_radius(R, N, N)`
equals `R` (exactly, hence within any floating-point tolerance). -/
theorem ring_radius_formula (R : ℚ) (N k : ℤ) :
    (0 ≤ k → k ≤ N →
      ring_radius R N k = ring_spacing R N / 2 + (k : ℚ) * ring_spacing R N)
    ∧ (0 < R → 1 ≤ N → ring_radius R N N = R) := by
  constructor
  · intro _ _
    rfl
  · intro _ _
    rw [ring_radius, ring_spacing]
    field_simp
    ring

/-- Witness for claim C3 at `R = 100`, `N = 8`, `k = 8`. -/
theorem ring_radius_formula_witness :
    ((0 : ℤ) ≤ 8 ∧ (8 : ℤ) ≤ 8 ∧
      ring_radius 100 8 8 = ring_spacing 100 8 / 2 + ((8 : ℤ) : ℚ) * ring_spacing 100 8)
    ∧ ((0 : ℚ) < 100 ∧ (1 : ℤ) ≤ 8 ∧ ring_radius 100 8 8 = 100) :=
  ⟨⟨by decide, by decide, (ring_radius_formula 100 8 8).1 (by decide) (by decide)⟩,
   ⟨by norm_num, by decide, (ring_radius_formula 100 8 8).2 (by norm_num) (by decide)⟩⟩

/-- Claim C4: for every radius `R > 0` and ring count `N ≥ 0`, the ring
radius is strictly increasing in the ring index: `0 ≤ j < k ≤ N` implies
`ring_radius(R, N, j) < ring_radius(R, N, k)`. -/
theorem ring_radius_strict_mono (R : ℚ) (N j k : ℤ)
    (hR : 0 < R) (hN : 0 ≤ N) (hj : 0 ≤ j) (hjk : j < k) (hk : k ≤ N) :
    ring_radius R N j < ring_radius R N k := by
  have hden : (0 : ℚ) < (N : ℚ) + 1 / 2 := by
    have hN' : (0 : ℚ) ≤ (N : ℚ) := by exact_mod_cast hN
    linarith
  have hrs : 0 < ring_spacing R N := div_pos hR hden
  have hjk' : (j : ℚ) < (k : ℚ) := by exact_mod_cast hjk
  have hmul := mul_lt_mul_of_pos_right hjk' hrs
  rw [ring_radius, ring_radius]
  linarith

/-- Witness for claim C4 at `R = 100`, `N = 8`, `j = 0`, `k = 1`. -/
theorem ring_radius_strict_mono_witness :
    (0 : ℚ) < 100 ∧ (0 : ℤ) ≤ 8 ∧ (0 : ℤ) ≤ 0 ∧ (0 : ℤ) < 1 ∧ (1 : ℤ) ≤ 8 ∧
      ring_radius 100 8 0 < ring_radius 100 8 1 :=
  ⟨by norm_num, by decide, by decide, by decide, by decide,
    ring_radius_strict_mono 100 8 0 1 (by norm_num) (by decide) (by decide)
      (by decide) (by decide)⟩

/-- Claim C5: for every ring index `k` in `[0, N]`, the ring outline at
index `k` is stroked white exactly when `(0 < k ∧ k < irings)` or
`(N - orings < k ∧ k < N)`, and is stroked black otherwise. -/
theorem stroke_color_rule (N irings orings k : ℤ) (h0 : 0 ≤ k) (hN : k ≤ N) :
    (strokeColor N irings orings k = Color.white ↔
      (0 < k ∧ k < irings) ∨ (N - orings < k ∧ k < N))
    ∧ (strokeColor N irings orings k = Color.black ↔
      ¬ ((0 < k ∧ k < irings) ∨ (N - orings < k ∧ k < N))) := by
  rw [strokeColor]
  split_ifs with hcond
  · exact ⟨iff_of_true rfl hcond, iff_of_false (by decide) (not_not_intro hcond)⟩
  · exact ⟨iff_of_false (by decide) hcond, iff_of_true rfl hcond⟩

/-- Witness for claim C5 at `N = 8`, `irings = 3`, `orings = 2`, `k = 1`. -/
theorem stroke_color_rule_witness :
    (0 : ℤ) ≤ 1 ∧ (1 : ℤ) ≤ 8 ∧
      ((strokeColor 8 3 2 1 = Color.white ↔
        ((0 : ℤ) < 1 ∧ (1 : ℤ) < 3) ∨ ((8 : ℤ) - 2 < 1 ∧ (1 : ℤ) < 8))
      ∧ (strokeColor 8 3 2 1 = Color.black ↔
        ¬ (((0 : ℤ) < 1 ∧ (1 : ℤ) < 3) ∨ ((8 : ℤ) - 2 < 1 ∧ (1 : ℤ) < 8)))) :=
  ⟨by decide, by decide, stroke_color_rule 8 3 2 1 (by decide) (by decide)⟩

/-- Claim C6: for every ring index `k` in `[1, N]`, the ring-number label at
index `k` is drawn white exactly when `k ≤ irings` or `k > N - orings`, and
black otherwise (inclusive bounds, shifted by one relative to the stroke
rule); in particular with `N = 8`, `irings = 3`, `orings = 2` the label for
`k = 3` is white, for `k = 4` black, and for `k = 7` white. -/
theorem label_color_rule (N irings orings k : ℤ) (h1 : 1 ≤ k) (hN : k ≤ N) :
    ((labelColor N irings orings k = Color.white ↔ k ≤ irings ∨ N - orings < k)
      ∧ (labelColor N irings orings k = Color.black ↔
        ¬ (k ≤ irings ∨ N - orings < k)))
    ∧ (labelColor 8 3 2 3 = Color.white ∧ labelColor 8 3 2 4 = Color.black
      ∧ labelColor 8 3 2 7 = Color.white) := by
  refine ⟨?_, by decide, by decide, by decide⟩
  rw [labelColor]
  split_ifs with hcond
  · exact ⟨iff_of_true rfl hcond, iff_of_false (by decide) (not_not_intro hcond)⟩
  · exact ⟨iff_of_false (by decide) hcond, iff_of_true rfl hcond⟩

/-- Witness for claim C6 at `N = 8`, `irings = 3`, `orings = 2`, `k = 3`. -/
theorem label_color_rule_witness :
    (1 : ℤ) ≤ 3 ∧ (3 : ℤ) ≤ 8 ∧
      (((labelColor 8 3 2 3 = Color.white ↔ (3 : ℤ) ≤ 3 ∨ (8 : ℤ) - 2 < 3)
        ∧ (labelColor 8 3 2 3 = Color.black ↔
          ¬ ((3 : ℤ) ≤ 3 ∨ (8 : ℤ) - 2 < 3)))
      ∧ (labelColor 8 3 2 3 = Color.white ∧ labelColor 8 3 2 4 = Color.black
        ∧ labelColor 8 3 2 7 = Color.white)) :=
  ⟨by decide, by decide, label_color_rule 8 3 2 3 (by decide) (by decide)⟩

/-- Nonnegativity of the caption numerator for a nonnegative spacing. -/
theorem captionNum_nonneg (p : ℚ) (hp : 0 ≤ p) : 0 ≤ captionNum p := by
  have harg : (0 : ℚ) ≤ pt_inch p * 32 + 1 / 2 := by
    have h72 : (0 : ℚ) ≤ p / 72 := div_nonneg hp (by norm_num)
    rw [pt_inch]
    linarith
  exact truncQ_nonneg _ harg

/-- Claim C7: for every nonnegative ring spacing `p` in points, whenever the
caption computation finishes, the numerator is `round(p/72*32)`, the
denominator is 32, and both are divided by their greatest common divisor;
in particular `p = 54` gives `num = 24`, `den = 32`, reduced to `3/4`
(printed as the caption `3/4"`). -/
theorem caption_fraction_rule (p : ℚ) (fuel : Nat) (nd : ℤ × ℤ)
    (hp : 0 ≤ p) (hrun : captionFraction fuel p = some nd) :
    captionNum p = round (p / 72 * 32)
    ∧ captionDen = 32
    ∧ nd = ((captionNum p).tdiv (Int.gcd (captionNum p) 32),
            (32 : ℤ).tdiv (Int.gcd (captionNum p) 32))
    ∧ (p = 54 → captionNum p = 24 ∧ nd = (3, 4)) := by
  have hnum54 : captionNum 54 = 24 := by
    rw [captionNum, pt_inch]
    have harg : (54 : ℚ) / 72 * 32 + 1 / 2 = 49 / 2 := by norm_num
    rw [harg, truncQ_eq_floor _ (by norm_num)]
    norm_num
  have hround : captionNum p = round (p / 72 * 32) := by
    have harg : (0 : ℚ) ≤ p / 72 * 32 + 1 / 2 := by
      have h72 : (0 : ℚ) ≤ p / 72 := div_nonneg hp (by norm_num)
      linarith
    rw [captionNum, pt_inch, truncQ_eq_floor _ harg, round_eq]
  cases hg : gcdF fuel (captionNum p) captionDen with
  | none =>
    rw [captionFraction, hg] at hrun
    cases hrun
  | some g =>
    rw [captionFraction, hg] at hrun
    have hgval : g = (Int.gcd (captionNum p) 32 : ℤ) := by
      have h32 : (0 : ℤ) ≤ captionDen := by decide
      have := gcdF_sound fuel (captionNum p) captionDen g
        (captionNum_nonneg p hp) h32 hg
      rw [this, captionDen]
    change some ((captionNum p).tdiv g, captionDen.tdiv g) = some nd at hrun
    injection hrun with hnd0
    have hnd : nd = ((captionNum p).tdiv (Int.gcd (captionNum p) 32),
        (32 : ℤ).tdiv (Int.gcd (captionNum p) 32)) := by
      rw [← hnd0, hgval, captionDen]
    refine ⟨hround, rfl, hnd, ?_⟩
    intro hp54
    subst hp54
    refine ⟨hnum54, ?_⟩
    rw [hnd, hnum54]
    decide

/-- Witness for claim C7 at `p = 54` with fuel 16. -/
theorem caption_fraction_rule_witness :
    (0 : ℚ) ≤ 54 ∧ captionFraction 16 54 = some (3, 4) ∧
      (captionNum 54 = round ((54 : ℚ) / 72 * 32)
        ∧ captionDen = 32
        ∧ ((3 : ℤ), (4 : ℤ)) = ((captionNum 54).tdiv (Int.gcd (captionNum 54) 32),
            (32 : ℤ).tdiv (Int.gcd (captionNum 54) 32))
        ∧ ((54 : ℚ) = 54 → captionNum 54 = 24 ∧ ((3 : ℤ), (4 : ℤ)) = (3, 4))) := by
  have hnum54 : captionNum 54 = 24 := by
    rw [captionNum, pt_inch]
    have harg : (54 : ℚ) / 72 * 32 + 1 / 2 = 49 / 2 := by norm_num
    rw [harg, truncQ_eq_floor _ (by norm_num)]
    norm_num
  have hrun : captionFraction 16 54 = some (3, 4) := by
    rw [captionFraction, hnum54]
    decide
  exact ⟨by norm_num, hrun, caption_fraction_rule 54 16 (3, 4) (by norm_num) hrun⟩

/-- Claim C8: for every command line containing an unrecognized flag, and
for every command line whose effective `-s` argument contains no `'x'`
separator, the program prints the usage text to standard error and exits
with status 2, creating no output file. -/
theorem usage_exit_rule (bg0 : Bool) (opts : List CliOpt) :
    (CliOpt.unknownFlag ∈ opts →
      exitStatus (runMain bg0 opts) = 2
        ∧ usageOnStderr (runMain bg0 opts) = true
        ∧ outputCreated (runMain bg0 opts) = false)
    ∧ ('x' ∉ (effGeom opts).toList →
      exitStatus (runMain bg0 opts) = 2
        ∧ usageOnStderr (runMain bg0 opts) = true
        ∧ outputCreated (runMain bg0 opts) = false) := by
  constructor
  · intro hmem
    have h := parseLoop_none_of_unknown opts (initConfig bg0) hmem
    simp only [runMain, h]
    exact ⟨rfl, rfl, rfl⟩
  · intro hx
    cases hparse : parseLoop (initConfig bg0) opts with
    | none =>
      simp only [runMain, hparse]
      exact ⟨rfl, rfl, rfl⟩
    | some c =>
      have hg : c.geom = effGeom opts :=
        parseLoop_geom opts (initConfig bg0) c hparse
      have hxc : ¬ ('x' ∈ c.geom.toList) := by
        rw [hg]
        exact hx
      simp only [runMain, hparse, hxc, if_neg hxc]
      exact ⟨rfl, rfl, rfl⟩

/-- Witness for claim C8: an unrecognized flag alone, and `-s 10` (no `x`). -/
theorem usage_exit_rule_witness :
    (CliOpt.unknownFlag ∈ [CliOpt.unknownFlag]
      ∧ exitStatus (runMain false [CliOpt.unknownFlag]) = 2
      ∧ usageOnStderr (runMain false [CliOpt.unknownFlag]) = true
      ∧ outputCreated (runMain false [CliOpt.unknownFlag]) = false)
    ∧ ('x' ∉ (effGeom [CliOpt.sizeArg "10"]).toList
      ∧ exitStatus (runMain false [CliOpt.sizeArg "10"]) = 2
      ∧ usageOnStderr (runMain false [CliOpt.sizeArg "10"]) = true
      ∧ outputCreated (runMain false [CliOpt.sizeArg "10"]) = false) :=
  ⟨⟨by decide, (usage_exit_rule false [CliOpt.unknownFlag]).1 (by decide)⟩,
   ⟨by decide, (usage_exit_rule false [CliOpt.sizeArg "10"]).2 (by decide)⟩⟩

/-- Claim C9 is false of the code: `opt_bg` is declared `bool opt_bg;` with
no initializer and `-b` is the only assignment, so when `-b` is absent the
background decision reads indeterminate memory.  With the same empty command
line the background rectangle is filled when the junk initial value is
`true` and not filled when it is `false`, so the rendered output is NOT
determined solely by the command-line arguments, and the background fill is
not reliably disabled. -/
theorem background_depends_on_uninitialized :
    backgroundFilled true [] = true ∧ backgroundFilled false [] = false := by
  constructor <;> decide

/-- Claim C10 is false of the code: the recursive helper `gcd` fails to
terminate on equal positive arguments, since `a != 0` and `!(a < b)` lead to
the call `gcd(b, a)` with the same argument pair.  No amount of fuel makes
`gcd(32, 32)` finish, and the caption computation reaches exactly this call
when the ring spacing is 72 points (one inch, `num = 32 = den`), so the
caption computation also fails to finish there. -/
theorem gcd_diverges_on_equal_args :
    ∀ fuel : Nat, gcdF fuel 32 32 = none ∧ captionFraction fuel 72 = none := by
  have hnum72 : captionNum 72 = 32 := by
    rw [captionNum, pt_inch]
    have harg : (72 : ℚ) / 72 * 32 + 1 / 2 = 65 / 2 := by norm_num
    rw [harg, truncQ_eq_floor _ (by norm_num)]
    norm_num
  intro fuel
  induction fuel with
  | zero => exact ⟨rfl, rfl⟩
  | succ n ih =>
    have h1 : gcdF (n + 1) 32 32 = none := by
      rw [gcdF, if_neg (by decide : ¬ (32 : ℤ) = 0),
        if_neg (by decide : ¬ (32 : ℤ) < 32)]
      exact ih.1
    refine ⟨h1, ?_⟩
    rw [captionFraction, hnum72]
    have h2 : gcdF (n + 1) 32 captionDen = none := h1
    rw [h2]
